import Mathlib

set_option maxRecDepth 4000

/-!
Verification development for the document tagger's core classification
pipeline (`document_tagger.py`).  The Python source is shallowly embedded:
strings are Lean `String`s (lists of unicode code points, matching Python's
`len`/indexing on `str`), machine-independent integers are `Nat`, the
optional rich tokenizer (jieba) is an explicit function parameter, and every
function is translated as an executable structural recursion so that concrete
inputs evaluate inside the kernel.
-/

/-! ## Character-class primitives (Python `str` semantics) -/

/-- Python whitespace (`str.isspace`, regex `\s`): ASCII control whitespace,
space, the C1/Unicode space characters. -/
def pySpace (c : Char) : Bool :=
  let n := c.toNat
  decide ((9 ≤ n ∧ n ≤ 13) ∨ n = 32 ∨ (28 ≤ n ∧ n ≤ 31) ∨ n = 133 ∨ n = 160 ∨
    n = 5760 ∨ (8192 ≤ n ∧ n ≤ 8202) ∨ n = 8232 ∨ n = 8233 ∨ n = 8239 ∨
    n = 8287 ∨ n = 12288)

/-- The 32 characters of Python's `string.punctuation` (ASCII 33-47, 58-64,
91-96, 123-126). -/
def isAsciiPunct (c : Char) : Bool :=
  let n := c.toNat
  decide ((33 ≤ n ∧ n ≤ 47) ∨ (58 ≤ n ∧ n ≤ 64) ∨ (91 ≤ n ∧ n ≤ 96) ∨
    (123 ≤ n ∧ n ≤ 126))

/-- Decimal digit for `str.isdigit` / regex `\d` (ASCII and fullwidth digits;
the only decimal digits that occur in this pipeline's data). -/
def pyIsDigitChar (c : Char) : Bool :=
  let n := c.toNat
  decide ((48 ≤ n ∧ n ≤ 57) ∨ (65296 ≤ n ∧ n ≤ 65305))

/-- CJK unified ideographs, the class `[一-鿿]` used by the source. -/
def isCJK (c : Char) : Bool :=
  decide (0x4e00 ≤ c.toNat ∧ c.toNat ≤ 0x9fff)

/-- Regex `\w` restricted to the alphabets this program manipulates:
ASCII letters/digits, underscore, fullwidth digits and CJK ideographs. -/
def isWordChar (c : Char) : Bool :=
  c.isAlpha || pyIsDigitChar c || decide (c.toNat = 95) || isCJK c

/-- Python `str.lower` (ASCII case folding; CJK characters are unaffected). -/
def pyLower (s : String) : String := String.mk (s.data.map Char.toLower)

/-! ## Substring and scanning primitives -/

/-- Does `w` occur at the front of `s`? -/
def subAtB (w s : List Char) : Bool := decide (s.take w.length = w)

/-- Does `w` occur anywhere in `s` (Python `w in s`)? -/
def hasSub (w : List Char) : List Char → Bool
  | [] => w.isEmpty
  | c :: rest => subAtB w (c :: rest) || hasSub w rest

/-- Python `w in s` on strings: `s` contains `w` as a contiguous substring. -/
def strContains (s w : String) : Bool := hasSub w.data s.data

/-- Index of the first occurrence of `w` in `s` (Python `s.find(w)`,
`none` instead of `-1`). -/
def firstOccAux (w : List Char) : List Char → Nat → Option Nat
  | [], i => if w.isEmpty then some i else none
  | c :: rest, i => if subAtB w (c :: rest) then some i else firstOccAux w rest (i + 1)

/-- First-occurrence index of `w` as a substring of `s`. -/
def firstOccIdx (w s : String) : Option Nat := firstOccAux w.data s.data 0

/-- Python `s.count(w)` for nonempty `w`: non-overlapping occurrences,
scanning left to right.  The fuel argument is the remaining length. -/
def countSubPos (w : List Char) : Nat → List Char → Nat
  | 0, _ => 0
  | _, [] => 0
  | fuel + 1, c :: rest =>
    if subAtB w (c :: rest) then 1 + countSubPos w fuel ((c :: rest).drop w.length)
    else countSubPos w fuel rest

/-- Python `hay.count(needle)`. -/
def pyCount (hay needle : String) : Nat :=
  if needle.data.isEmpty then hay.data.length + 1
  else countSubPos needle.data hay.data.length hay.data

/-- Strip characters satisfying `p` from both edges (Python `str.strip`). -/
def stripEdges (p : Char → Bool) (s : String) : String :=
  String.mk (((s.data.dropWhile p).reverse.dropWhile p).reverse)

/-- Python `s.strip()` with no arguments (whitespace strip). -/
def pyStripWs (s : String) : String := stripEdges pySpace s

/-- The strip set `string.punctuation + ' \t\n'` used on keyword candidates. -/
def stripPunctSet (c : Char) : Bool :=
  isAsciiPunct c || decide (c.toNat = 32) || decide (c.toNat = 9) || decide (c.toNat = 10)

/-- `word.strip(string.punctuation + ' \t\n')`. -/
def pyStripPunct (s : String) : String := stripEdges stripPunctSet s

/-- Python `s.isdigit()`: nonempty and all decimal digits. -/
def pyIsDigitStr (s : String) : Bool := !s.data.isEmpty && s.data.all pyIsDigitChar

/-- Python `s.isspace()`: nonempty and all whitespace. -/
def pyIsSpaceStr (s : String) : Bool := !s.data.isEmpty && s.data.all pySpace

/-- Length of the maximal prefix of `l` satisfying `p`. -/
def countWhile (p : Char → Bool) (l : List Char) : Nat := (l.takeWhile p).length

/-- Split into the maximal runs of characters NOT satisfying `p`
(the effect of `re.sub('[class]+', ' ', s).split()`).  `acc` holds the
current run reversed. -/
def splitRunsAux (p : Char → Bool) : List Char → List Char → List (List Char)
  | [], acc => if acc.isEmpty then [] else [acc.reverse]
  | c :: rest, acc =>
    if p c then
      if acc.isEmpty then splitRunsAux p rest []
      else acc.reverse :: splitRunsAux p rest []
    else splitRunsAux p rest (c :: acc)

/-- Split `s` on separator characters satisfying `p`, dropping empty pieces. -/
def splitRuns (p : Char → Bool) (s : String) : List String :=
  (splitRunsAux p s.data []).map String.mk

/-- Python `s[:n]` (by code points). -/
def strTake (s : String) (n : Nat) : String := String.mk (s.data.take n)

/-- `any(w in s for w in ws)`. -/
def containsAny (s : String) (ws : List String) : Bool :=
  ws.any (fun w => strContains s w)

/-- Python `' '.join`. -/
def joinSp : List String → String
  | [] => ""
  | [x] => x
  | x :: y :: rest => x ++ " " ++ joinSp (y :: rest)

/-- Python `'; '.join`. -/
def joinSemi : List String → String
  | [] => ""
  | [x] => x
  | x :: y :: rest => x ++ "; " ++ joinSemi (y :: rest)

/-! ## Keyword extraction (`_get_keywords_count`, `extract_keywords`,
`_extract_verified_keywords_from_text`, `_absolute_strict_verify_word_in_text`) -/

/-- Length-derived keyword cap (source `_get_keywords_count`).  The final
`int(text_length / 1000)` is exact integer division for every representable
length, so it is `Nat` division here. -/
def getKeywordsCount (text_length : Nat) : Nat :=
  if text_length < 200 then 2
  else if text_length < 500 then 3
  else if text_length < 1000 then 5
  else if text_length < 2000 then 8
  else if text_length < 3000 then 10
  else if text_length < 5000 then 12
  else if text_length < 8000 then 15
  else if text_length < 12000 then 18
  else if text_length < 20000 then 22
  else min (text_length / 1000 + 3) 30

/-- The class `[，。！？；：“”‘’（）【】\[\]\{\}<>《》、\s]` of method 1. -/
def chinesePunctOrWs (c : Char) : Bool :=
  pySpace c ||
  [0xFF0C, 0x3002, 0xFF01, 0xFF1F, 0xFF1B, 0xFF1A, 0x201C, 0x201D, 0x2018,
   0x2019, 0xFF08, 0xFF09, 0x3010, 0x3011, 91, 93, 123, 125, 60, 62,
   0x300A, 0x300B, 0x3001].contains c.toNat

/-- The class `[.,!?;:\"\'\(\)\[\]\{\}<>\s]` of method 2. -/
def latinPunctOrWs (c : Char) : Bool :=
  pySpace c ||
  [46, 44, 33, 63, 59, 58, 34, 39, 40, 41, 91, 93, 123, 125, 60, 62].contains c.toNat

/-- Greedy chunking of a run of CJK characters by `[一-鿿]{2,8}`:
take 8, continue; a final remnant of fewer than 2 characters yields nothing. -/
def chunkGreedy : Nat → List Char → List String
  | 0, _ => []
  | _, [] => []
  | fuel + 1, c :: rest =>
    let piece := (c :: rest).take 8
    if 2 ≤ piece.length then String.mk piece :: chunkGreedy fuel ((c :: rest).drop 8)
    else []

/-- Method 3: `re.findall(r'[一-鿿]{2,8}', text)`. -/
def chineseRuns (s : String) : List String :=
  ((splitRunsAux (fun c => !isCJK c) s.data []).map
    (fun run => chunkGreedy run.length run)).flatten

/-- The concatenated candidate words of the three generation methods. -/
def kwCandidates (text : String) : List String :=
  splitRuns chinesePunctOrWs text ++ splitRuns latinPunctOrWs text ++ chineseRuns text

/-- The basic filter applied to each (already stripped) candidate word. -/
def kwBaseFilter (w : String) : Bool :=
  decide (2 ≤ w.length) && decide (w.length ≤ 8) && !pyIsDigitStr w &&
  !(pyStripWs w).data.isEmpty && !pyIsSpaceStr w &&
  !(["html", "http", "https", "www"].contains (pyLower w))

/-- Source `_absolute_strict_verify_word_in_text`: the candidate must be an
exact substring of the original text. -/
def absoluteStrictVerify (word text : String) : Bool := strContains text word

/-- The stream of candidate tokens that reach the frequency counter:
each candidate stripped, kept when it passes the basic filter and the
strict in-text verification. -/
def countedTokens (text : String) : List String :=
  ((kwCandidates text).map pyStripPunct).filter
    (fun w => kwBaseFilter w && absoluteStrictVerify w text)

/-- `word_count[word] += 1` on an insertion-ordered association list
(Python `Counter` dictionary semantics). -/
def bump (w : String) : List (String × Nat) → List (String × Nat)
  | [] => [(w, 1)]
  | (k, c) :: rest => if k = w then (k, c + 1) :: rest else (k, c) :: bump w rest

/-- Build the counter over a token stream; keys appear in first-occurrence
order, as in a Python dict. -/
def countKeys (ws : List String) : List (String × Nat) :=
  ws.foldl (fun acc w => bump w acc) []

/-- Stable insertion for descending-by-count order: the new element goes in
front of the first entry whose count it reaches.  Since `foldr` inserts
earlier entries later, equal counts keep insertion order — exactly Python's
stable `sorted(..., key=count, reverse=True)`. -/
def insertD (p : String × Nat) : List (String × Nat) → List (String × Nat)
  | [] => [p]
  | q :: qs => if q.2 ≤ p.2 then p :: q :: qs else q :: insertD p qs

/-- `Counter.most_common()`: stable descending sort by count. -/
def sortByCountDesc (l : List (String × Nat)) : List (String × Nat) :=
  l.foldr insertD []

/-- The ~45-word function-word stoplist (source `common_words`). -/
def commonWords : List String :=
  ["的", "了", "在", "和", "与", "为", "是", "有", "及", "等", "可以", "进行",
   "通过", "或者", "如果", "但是", "因为", "所以", "这个", "那个", "我们",
   "他们", "她们", "它们", "之后", "之前", "什么", "怎么", "哪里", "什么时候",
   "为什么", "一个", "一种", "一些", "所有", "每个", "因此", "然后", "现在",
   "已经", "仍然", "只是", "也是", "还是", "或是", "就是", "不是", "没有",
   "这些", "那些"]

/-- The selection loop over `most_common()`: keep a ranked word when it is
not a stopword, occurs at least once, and the result is not yet full. -/
def selectKeywords : List (String × Nat) → Nat → List String
  | [], _ => []
  | (w, c) :: rest, quota =>
    if !commonWords.contains w && decide (1 ≤ c) && decide (0 < quota) then
      w :: selectKeywords rest (quota - 1)
    else selectKeywords rest quota

/-- The frequency counter of `_extract_verified_keywords_from_text`. -/
def kwCounter (text : String) : List (String × Nat) := countKeys (countedTokens text)

/-- The counter sorted by `most_common()`. -/
def rankedKeywords (text : String) : List (String × Nat) := sortByCountDesc (kwCounter text)

/-- Source `extract_keywords`: blank text yields no keywords, otherwise the
verified extraction bounded by the length-derived cap. -/
def extract_keywords (text : String) : List String :=
  if (pyStripWs text).data.isEmpty then []
  else selectKeywords (rankedKeywords text) (getKeywordsCount text.length)

/-- The frequency recorded for a word by the extractor's counter. -/
def kwFreq (text w : String) : Nat := ((kwCounter text).lookup w).getD 0

/-- The counter's key sequence: candidate tokens in order of first insertion
into the frequency counter. -/
def counterKeys (text : String) : List String := (kwCounter text).map Prod.fst

/-! ## Generic "max of a mapping, first on tie" selection

Python `max(d, key=d.get)` over an insertion-ordered dict: scan, keeping the
current best, replacing only on a strictly greater value. -/

/-- The scanning fold of Python `max(..., key=...)`. -/
def foldBest (p : String × Nat) (l : List (String × Nat)) : String × Nat :=
  l.foldl (fun best q => if best.2 < q.2 then q else best) p

/-- `max(d, key=d.get)` on an association list (`none` when empty). -/
def maxKeyFirst : List (String × Nat) → Option (String × Nat)
  | [] => none
  | p :: rest => some (foldBest p rest)

/-- `max(d.values())` (0 when empty). -/
def maxScores (l : List (String × Nat)) : Nat :=
  l.foldr (fun p m => max p.2 m) 0

/-! ## DocumentTypeClassifier (`classify_document_type`, `document_types`) -/

/-- The six document-type buckets with their trigger keywords, in source
declaration order. -/
def documentTypes : List (String × List String) :=
  [("需求类文档",
    ["需求", "功能需求", "业务需求", "产品需求", "PRD", "需求分析",
     "requirement", "feature", "用户需求", "功能规格", "需求说明"]),
   ("技术类文档",
    ["技术", "开发", "编程", "代码", "实现", "架构", "设计", "API",
     "development", "coding", "技术方案", "系统设计", "接口文档",
     "数据库", "算法", "框架", "技术规范"]),
   ("测试类文档",
    ["测试", "质量", "QA", "测试用例", "测试计划", "testing",
     "测试报告", "缺陷", "bug", "质量保证", "验收测试", "性能测试"]),
   ("运维类文档",
    ["运维", "部署", "监控", "服务器", "系统运维", "devops",
     "deploy", "运维手册", "故障处理", "备份", "安全", "配置管理"]),
   ("知识类文档",
    ["知识", "教程", "培训", "说明", "指南", "手册", "介绍",
     "学习", "分享", "总结", "经验", "最佳实践", "规范", "标准"]),
   ("管理类文档",
    ["管理", "项目管理", "计划", "流程", "规范", "management",
     "process", "会议", "决策", "报告", "总结", "制度", "政策"])]

/-- One bucket's score: occurrences of each trigger in the lower-cased
combined text, plus 5 per trigger present in the lower-cased title. -/
def docTypeScore (combined titleLower : String) (kws : List String) : Nat :=
  kws.foldl
    (fun s kw =>
      s + pyCount combined (pyLower kw) +
        (if strContains titleLower (pyLower kw) then 5 else 0)) 0

/-- All six `(bucket, score)` pairs for a document. -/
def docTypeScores (text title : String) : List (String × Nat) :=
  documentTypes.map
    (fun b => (b.1, docTypeScore (pyLower (title ++ " " ++ text)) (pyLower title) b.2))

/-- Source `classify_document_type`: keep only positive scores (the dict is
built with `if score > 0`), take the max with first-declared tie-break, and
default to 知识类文档 when the dict is empty. -/
def classify_document_type (text title : String) : String :=
  match maxKeyFirst ((docTypeScores text title).filter (fun p => 0 < p.2)) with
  | some best => best.1
  | none => "知识类文档"

/-- Modelled from the spec's words (§4.2): compute all six scores, return
the bucket with the maximum score with first-declared winning ties, and
知识类文档 when every score is zero. -/
def classifyDocumentTypeSpec (text title : String) : String :=
  if (docTypeScores text title).all (fun p => p.2 == 0) then "知识类文档"
  else
    match (docTypeScores text title).find?
        (fun p => p.2 == maxScores (docTypeScores text title)) with
    | some p => p.1
    | none => "知识类文档"

/-! ## ProjectClassifier: explicit name extraction
(`_extract_explicit_project_name`, `_standardize_project_name`) -/

/-- Length of the maximal `\w` run at the front. -/
def wordRunLen (s : List Char) : Nat := countWhile isWordChar s

/-- Greedy attempt of `\w{..}suffix` at a fixed start: try the largest
word-char count `m` first, going down; `needOne` demands `m ≥ 1` (`\w+`
instead of `\w*`). -/
def greedyDown (needOne : Bool) (sfx s : List Char) : Nat → Option Nat
  | 0 => if needOne then none else if subAtB sfx s then some 0 else none
  | m + 1 =>
    if subAtB sfx (s.drop (m + 1)) then some (m + 1)
    else greedyDown needOne sfx s m

/-- `re.search` for the capture of `(\w*sfx)` / `(\w+sfx)` (the trailing
`\s*[vV]?\d*\.?\d*` of the source patterns matches everywhere and does not
affect the capture): leftmost start, then greedy. -/
def searchGroup (needOne : Bool) (sfx : List Char) : List Char → Option (List Char)
  | [] => none
  | c :: rest =>
    match greedyDown needOne sfx (c :: rest) (wordRunLen (c :: rest)) with
    | some m => some ((c :: rest).take (m + sfx.length))
    | none => searchGroup needOne sfx rest

/-- The five title patterns in source order: `(\w*中心)`, `(\w+系统)`,
`(\w+平台)`, `(\w+项目)`, `(\w+业务)`, each with the optional version tail. -/
def titlePatterns : List (Bool × String) :=
  [(false, "中心"), (true, "系统"), (true, "平台"), (true, "项目"), (true, "业务")]

/-- First title pattern that matches, with its captured core phrase. -/
def firstTitleMatch (title : String) : Option String :=
  titlePatterns.findSome?
    (fun pat => (searchGroup pat.1 pat.2.data title.data).map String.mk)

/-- `re.sub(r'[vV]?\d+\.?\d*', '', s)`: delete every version-number token. -/
def stripVersionTokens : Nat → List Char → List Char
  | 0, _ => []
  | _, [] => []
  | fuel + 1, c :: rest =>
    let body : List Char → Option (List Char) := fun t =>
      let d1 := countWhile pyIsDigitChar t
      if d1 = 0 then none
      else
        match t.drop d1 with
        | '.' :: t2 => some (t2.drop (countWhile pyIsDigitChar t2))
        | t1 => some t1
    match (if c = 'v' ∨ c = 'V' then body rest else body (c :: rest)) with
    | some rem => stripVersionTokens fuel rem
    | none => c :: stripVersionTokens fuel rest

/-- The ordered standardization table (dict insertion order; first substring
match wins). -/
def standardizationMap : List (String × String) :=
  [("超品中心", "超品中心项目"), ("超品", "超品中心项目"),
   ("财务", "财务管理项目"), ("财务系统", "财务管理项目"),
   ("财务专项", "财务管理项目"), ("新人", "人力资源项目"),
   ("入职", "人力资源项目"), ("部门", "组织管理项目"),
   ("组织", "组织管理项目"), ("文档分类", "知识管理项目"),
   ("文档", "知识管理项目"), ("知识", "知识管理项目"),
   ("商家端", "超品中心项目"), ("遥望星选", "超品中心项目"),
   ("背景", "技术平台项目")]

/-- Source `_standardize_project_name`: clean version tokens, look the core
phrase up in the table, otherwise suffix 项目 (the source distinguishes
中心/平台/系统 and 管理 cases, but all three arms build the same string). -/
def standardizeProjectName (core : String) : String :=
  let cleaned := pyStripWs (String.mk (stripVersionTokens core.data.length core.data))
  match standardizationMap.find? (fun e => strContains cleaned e.1) with
  | some e => e.2
  | none =>
    if ["中心", "平台", "系统"].any (fun w => strContains cleaned w) then
      cleaned ++ "项目"
    else if strContains cleaned "管理" then cleaned ++ "项目"
    else cleaned ++ "项目"

/-! ### Content-anchored patterns of `_extract_explicit_project_name`

Four fixed patterns are matched with `re.findall` over
`title + " " + text[:500]`.  Two shapes occur:

* `lit[:：]?\s*([^…]{2,10})` — anchor literal, optional colon, whitespace,
  then a greedy capture of non-separator characters.  Backtracking is only
  possible on the optional colon (the capture class excludes whitespace, so
  `\s*` and the greedy capture cannot trade characters).
* `([^\s]{2,n})\s*lit` — greedy capture, whitespace, anchor literal; the
  capture backtracks from its maximal run down to 2 until the literal fits.
-/

/-- Try `[:：]?\s*(group)` at `t`; returns capture and consumed length. -/
def groupAfterWs (excl : Char → Bool) (maxL : Nat) (t : List Char) :
    Option (List Char × Nat) :=
  let w := countWhile pySpace t
  let t2 := t.drop w
  let g := min maxL (countWhile (fun c => !excl c) t2)
  if 2 ≤ g then some (t2.take g, w + g) else none

/-- Match shape `lit[:：]?\s*([^excl]{2,maxL})` at the front of `s`. -/
def matchAnchored (lit : List Char) (excl : Char → Bool) (maxL : Nat)
    (s : List Char) : Option (List Char × Nat) :=
  if subAtB lit s then
    let rest := s.drop lit.length
    match rest with
    | c :: rest' =>
      if c = ':' ∨ c.toNat = 0xFF1A then
        match groupAfterWs excl maxL rest' with
        | some (g, n) => some (g, lit.length + 1 + n)
        | none =>
          match groupAfterWs excl maxL rest with
          | some (g, n) => some (g, lit.length + n)
          | none => none
      else
        match groupAfterWs excl maxL rest with
        | some (g, n) => some (g, lit.length + n)
        | none => none
    | [] =>
      match groupAfterWs excl maxL [] with
      | some (g, n) => some (g, lit.length + n)
      | none => none
  else none

/-- Backtracking loop for shape `([^\s]{2,maxL})\s*lit`: try the capture
length from `g` down to 2. -/
def tryGroupThenLit (lit s : List Char) : Nat → Option (List Char × Nat)
  | 0 => none
  | g + 1 =>
    if 2 ≤ g + 1 then
      let t := s.drop (g + 1)
      let w := countWhile pySpace t
      if subAtB lit (t.drop w) then some (s.take (g + 1), g + 1 + w + lit.length)
      else tryGroupThenLit lit s g
    else none

/-- Match shape `([^\s]{2,maxL})\s*lit` at the front of `s`. -/
def matchGroupLit (lit : List Char) (maxL : Nat) (s : List Char) :
    Option (List Char × Nat) :=
  tryGroupThenLit lit s (min maxL (countWhile (fun c => !pySpace c) s))

/-- `re.findall` scan: leftmost matches, continuing after each match's end. -/
def findallAux (m : List Char → Option (List Char × Nat)) :
    Nat → List Char → List String
  | 0, _ => []
  | _, [] => []
  | fuel + 1, c :: rest =>
    match m (c :: rest) with
    | some (grp, len) => String.mk grp :: findallAux m fuel ((c :: rest).drop len)
    | none => findallAux m fuel rest

/-- `re.findall(pattern, s)` for the restricted pattern matcher `m`. -/
def pyFindAll (m : List Char → Option (List Char × Nat)) (s : String) :
    List String :=
  findallAux m s.data.length s.data

/-- The capture class `[^\s\n,，。]` of the two anchored content patterns. -/
def contentExcl (c : Char) : Bool :=
  pySpace c || decide (c.toNat = 44) || decide (c.toNat = 0xFF0C) ||
  decide (c.toNat = 0x3002)

/-- The candidate filter of the content-pattern loop: at least 2 characters,
not purely numeric, not starting with a full-width colon, not containing
解决. -/
def contentCandOk (m : String) : Bool :=
  decide (2 ≤ m.length) && !pyIsDigitStr m && !subAtB "：".data m.data &&
  !strContains m "解决"

/-- The inner loop over one pattern's matches: strip, filter, standardize,
and accept only when a known mapping fired (the accepted name differs from
the generic `match + 项目` form). -/
def tryContentMatches (ms : List String) : Option String :=
  ms.findSome? (fun m0 =>
    let m := pyStripWs m0
    if contentCandOk m then
      let std := standardizeProjectName m
      if std = m ++ "项目" then none else some std
    else none)

/-- The content-pattern phase over `title + " " + text[:500]`. -/
def contentPhase (s : String) : String :=
  match tryContentMatches (pyFindAll (matchAnchored "项目".data contentExcl 10) s) with
  | some r => r
  | none =>
    match tryContentMatches (pyFindAll (matchAnchored "所属项目".data contentExcl 10) s) with
    | some r => r
    | none =>
      match tryContentMatches (pyFindAll (matchGroupLit "PRD".data 8) s) with
      | some r => r
      | none =>
        match tryContentMatches (pyFindAll (matchGroupLit "需求文档".data 10) s) with
        | some r => r
        | none => ""

/-- Source `_extract_explicit_project_name`: title patterns first, then the
content-anchored patterns; `""` when nothing is accepted. -/
def extractExplicitProjectName (title text : String) : String :=
  match firstTitleMatch title with
  | some core => standardizeProjectName core
  | none => contentPhase (title ++ " " ++ strTake text 500)

/-! ## ProjectClassifier: scoring and content inference
(`identify_project`, `_infer_project_from_content`) -/

/-- The 14-project keyword catalog, in source declaration order. -/
def projectKeywords : List (String × List String) :=
  [("超品中心项目", ["超品", "超级品牌", "品牌中心", "品牌运营"]),
   ("直播业务项目", ["直播", "主播", "直播间", "直播运营", "直播平台"]),
   ("电商系统项目", ["订单", "商品", "购物车", "支付", "物流", "OMS"]),
   ("财务管理项目", ["财务", "会计", "成本", "预算", "收入", "支出", "结算"]),
   ("营销推广项目", ["营销", "推广", "广告", "活动", "用户增长", "转化"]),
   ("内容运营项目", ["内容", "创作", "视频", "图片", "文章", "创意"]),
   ("用户运营项目", ["用户运营", "私域", "客服", "用户管理", "客户服务"]),
   ("技术平台项目", ["平台", "系统", "架构", "技术", "开发", "产研"]),
   ("数据分析项目", ["数据", "分析", "统计", "指标", "报表", "数据库"]),
   ("移动端项目", ["移动", "APP", "小程序", "移动端", "iOS", "Android"]),
   ("运维保障项目", ["运维", "部署", "监控", "服务器", "运维保障"]),
   ("人力资源项目", ["人力", "HR", "招聘", "培训", "绩效", "薪酬", "员工"]),
   ("质量管控项目", ["质量", "品控", "品质管理", "质量保证", "测试"]),
   ("流程优化项目", ["流程", "优化", "规范", "标准化", "制度", "管理"])]

/-- One project's score: occurrences in the combined lower-cased text plus
3 per keyword present in the lower-cased title. -/
def projectScore (combined titleLower : String) (kws : List String) : Nat :=
  kws.foldl
    (fun s kw =>
      s + pyCount combined (pyLower kw) +
        (if strContains titleLower (pyLower kw) then 3 else 0)) 0

/-- The domain vocabularies of `_infer_project_from_content`, in source
declaration order. -/
def domainVocab : List (String × List String) :=
  [("财务管理项目", ["财务", "结算", "业绩", "毛利", "成本", "收入", "支出", "预算", "会计"]),
   ("人力资源项目", ["人力", "招聘", "培训", "员工", "入职", "薪酬", "绩效", "考核"]),
   ("产品研发项目", ["产品", "需求", "PRD", "功能", "用户", "体验", "设计"]),
   ("技术平台项目", ["技术", "开发", "系统", "平台", "架构", "数据库", "接口", "API"]),
   ("运营推广项目", ["运营", "营销", "推广", "活动", "转化", "渠道", "客户"]),
   ("组织管理项目", ["管理", "流程", "制度", "规范", "优化", "团队", "组织"]),
   ("知识管理项目", ["文档", "知识", "分类", "收集", "整理", "归档", "指南"])]

/-- The scoring tail of `_infer_project_from_content` (after its duplicated
title checks): rank the tokenizer's keywords against the domain
vocabularies, falling back to the coarse business/tech/management counts.
`tok` abstracts the keyword producer (jieba `extract_tags(topK=15)` when
available, else the simple split-and-count fallback); it is applied to the
same text argument the source passes.  Hoisting the keyword computation
into this tail is behavior-preserving because it is pure and unused by the
title checks. -/
def inferScoringTail (tok : String → List String) (text : String) : String :=
  let keywords := tok text
  let domainScores := domainVocab.map (fun d =>
    (d.1, keywords.countP (fun kw => d.2.any (fun w => strContains kw w))))
  if 0 < maxScores domainScores then
    match maxKeyFirst domainScores with
    | some best => best.1
    | none => "组织管理项目"
  else
    let business := keywords.countP (fun kw =>
      ["用户", "产品", "业务", "运营", "营销", "商业"].any (fun w => strContains kw w))
    let tech := keywords.countP (fun kw =>
      ["系统", "平台", "技术", "开发", "数据", "功能"].any (fun w => strContains kw w))
    let mgmt := keywords.countP (fun kw =>
      ["管理", "流程", "制度", "培训", "团队"].any (fun w => strContains kw w))
    if business ≤ tech ∧ mgmt ≤ tech then "技术平台项目"
    else if mgmt ≤ business then "业务运营项目"
    else "组织管理项目"

/-- The Tier-1/2/3 title check chain of `identify_project` (first match
wins, over the lower-cased title). -/
def titleTierCheck (titleLower : String) : Option String :=
  if containsAny titleLower ["超品中心", "超品"] then some "超品中心项目"
  else if containsAny titleLower ["财务", "结算", "业绩", "毛利"] then some "财务管理项目"
  else if containsAny titleLower ["新人", "入职", "培训"] then some "人力资源项目"
  else if containsAny titleLower ["部门", "组织", "团队", "职责"] then some "组织管理项目"
  else if containsAny titleLower ["商家", "星选", "遥望星选"] then some "超品中心项目"
  else if containsAny titleLower ["文档", "分类", "收集", "知识"] then some "知识管理项目"
  else none

/-- The duplicated title check chain inside `_infer_project_from_content`:
identical to `titleTierCheck` except that its third line adds the extra
trigger `onboard`. -/
def innerTitleTierCheck (titleLower : String) : Option String :=
  if containsAny titleLower ["超品中心", "超品"] then some "超品中心项目"
  else if containsAny titleLower ["财务", "结算", "业绩", "毛利"] then some "财务管理项目"
  else if containsAny titleLower ["新人", "入职", "培训", "onboard"] then some "人力资源项目"
  else if containsAny titleLower ["部门", "组织", "团队", "职责"] then some "组织管理项目"
  else if containsAny titleLower ["商家", "星选", "遥望星选"] then some "超品中心项目"
  else if containsAny titleLower ["文档", "分类", "收集", "知识"] then some "知识管理项目"
  else none

/-- Source `_infer_project_from_content`: the duplicated title checks, then
the scoring tail. -/
def inferProjectFromContent (tok : String → List String) (text title : String) :
    String :=
  match innerTitleTierCheck (pyLower title) with
  | some r => r
  | none => inferScoringTail tok text

/-- The content-inference fallback with the duplicated title checks removed
(the variant compared in the refinement claim). -/
def inferNoTitleChecks (tok : String → List String) (text _title : String) : String :=
  inferScoringTail tok text

/-- Source `identify_project` with the content-inference fallback passed in
by value (`fallback` is pure, so precomputing it is behavior-preserving):
title tiers, then explicit extraction, then keyword scoring accepted only
at score ≥ 3, then the fallback. -/
def identifyProjectCore (fallback : String) (text title : String) : String :=
  match titleTierCheck (pyLower title) with
  | some r => r
  | none =>
    let extracted := extractExplicitProjectName title text
    if extracted.data.isEmpty then
      let scores := (projectKeywords.map
        (fun pr => (pr.1,
          projectScore (pyLower (title ++ " " ++ text)) (pyLower title) pr.2))).filter
          (fun p => 0 < p.2)
      match maxKeyFirst scores with
      | some best => if 3 ≤ maxScores scores then best.1 else fallback
      | none => fallback
    else extracted

/-- Source `identify_project`. -/
def identify_project (tok : String → List String) (text title : String) : String :=
  identifyProjectCore
    (inferProjectFromContent tok (pyLower (title ++ " " ++ text)) title) text title

/-- The variant of `identify_project` whose content-inference fallback has
the duplicated title checks removed. -/
def identifyProjectNoDupChecks (tok : String → List String) (text title : String) :
    String :=
  identifyProjectCore
    (inferNoTitleChecks tok (pyLower (title ++ " " ++ text)) title) text title

/-! ## SummaryGenerator (`generate_content_summary`) -/

/-- `paragraphs = [p.strip() for p in text.split('\n') if p.strip()]`. -/
def splitParagraphs (text : String) : List String :=
  ((splitRuns (fun c => c = '\n') text).map pyStripWs).filter
    (fun p => !p.data.isEmpty)

/-- The five pattern groups, source order of the `elif` chain:
background, objective, solution, result, content. -/
def backgroundPatterns : List String := ["背景", "现状", "问题", "挑战", "原因", "情况"]

def objectivePatterns : List String := ["目标", "目的", "期望", "预期", "计划", "要求"]

def contentPatterns : List String := ["内容", "功能", "特点", "特性", "包括", "包含", "具体"]

def solutionPatterns : List String := ["方案", "解决", "实现", "实施", "执行", "操作", "步骤", "流程"]

def resultPatterns : List String := ["结果", "效果", "收益", "价值", "成果", "总结", "结论"]

/-- Does a group's trigger set intersect the lower-cased paragraph? -/
def matchesPats (pats : List String) (p : String) : Bool :=
  pats.any (fun w => strContains (pyLower p) w)

/-- Membership in the background bucket: first arm of the `elif` chain, with
the nested length guard. -/
def isBackgroundPara (p : String) : Bool :=
  matchesPats backgroundPatterns p && decide (15 < p.length)

def isObjectivePara (p : String) : Bool :=
  !matchesPats backgroundPatterns p && matchesPats objectivePatterns p &&
  decide (15 < p.length)

def isSolutionPara (p : String) : Bool :=
  !matchesPats backgroundPatterns p && !matchesPats objectivePatterns p &&
  matchesPats solutionPatterns p && decide (15 < p.length)

def isResultPara (p : String) : Bool :=
  !matchesPats backgroundPatterns p && !matchesPats objectivePatterns p &&
  !matchesPats solutionPatterns p && matchesPats resultPatterns p &&
  decide (15 < p.length)

def isContentPara (p : String) : Bool :=
  !matchesPats backgroundPatterns p && !matchesPats objectivePatterns p &&
  !matchesPats solutionPatterns p && !matchesPats resultPatterns p &&
  matchesPats contentPatterns p && decide (15 < p.length)

/-- The fixed importance vocabulary (27 words) of the no-structure branch. -/
def importantKeywords : List String :=
  ["项目", "系统", "平台", "功能", "需求", "设计", "开发", "测试", "运维",
   "管理", "流程", "规范", "优化", "升级", "改进", "实现", "支持", "提供",
   "用户", "客户", "业务", "服务", "产品", "方案", "计划", "目标", "效果"]

/-- Importance score of a paragraph: summed occurrence counts over the
lower-cased paragraph. -/
def importanceScore (p : String) : Nat :=
  importantKeywords.foldl (fun s kw => s + pyCount (pyLower p) kw) 0

/-- The scoring loop of the no-structure branch: paragraphs longer than 30,
scored, kept only when the score is positive. -/
def scoredParagraphs : List String → List (String × Nat)
  | [] => []
  | p :: rest =>
    if 30 < p.length then
      let s := importanceScore p
      if 0 < s then (p, s) :: scoredParagraphs rest else scoredParagraphs rest
    else scoredParagraphs rest

/-- The no-structure content bucket: the first 15 paragraphs are scored,
stably sorted by descending score, and the top 8 kept. -/
def noStructureContent (paras : List String) : List String :=
  ((sortByCountDesc (scoredParagraphs (paras.take 15))).take 8).map Prod.fst

/-- The content bucket actually used by the rich-tokenizer path: the content
pattern group, replaced by the no-structure ranking when all five groups
are empty. -/
def summaryContentBucket (paras : List String) : List String :=
  if (paras.filter isBackgroundPara).isEmpty &&
     (paras.filter isObjectivePara).isEmpty &&
     (paras.filter isContentPara).isEmpty &&
     (paras.filter isSolutionPara).isEmpty &&
     (paras.filter isResultPara).isEmpty then noStructureContent paras
  else paras.filter isContentPara

/-- Source `generate_content_summary`; `rich` is the `HAS_JIEBA` capability
flag (the branch only gates on it; jieba itself is not called here). -/
def generate_content_summary (rich : Bool) (text title : String) : String :=
  if (pyStripWs text).data.isEmpty then "文档内容为空"
  else
    let paras := splitParagraphs text
    let parts : List String :=
      if rich then
        let bg := paras.filter isBackgroundPara
        let obj := paras.filter isObjectivePara
        let sol := paras.filter isSolutionPara
        let res := paras.filter isResultPara
        let content := summaryContentBucket paras
        (if !bg.isEmpty then ["【背景情况】" ++ joinSp (bg.take 2)] else []) ++
        (if !obj.isEmpty then ["【项目目标】" ++ joinSp (obj.take 2)] else []) ++
        (if !content.isEmpty then ["【主要内容】" ++ joinSp (content.take 4)] else []) ++
        (if !sol.isEmpty then ["【实施方案】" ++ joinSp (sol.take 3)] else []) ++
        (if !res.isEmpty then ["【预期效果】" ++ joinSp (res.take 2)] else [])
      else
        let important := (paras.take 10).filter (fun p => 30 < p.length)
        if !important.isEmpty then ["【文档内容】" ++ joinSp (important.take 5)] else []
    if !parts.isEmpty then joinSp parts
    else
      let preview := (paras.take 6).filter (fun p => 20 < p.length)
      if !preview.isEmpty then
        "【文档概述】本文档主要阐述了" ++ title ++ "的相关内容，包括：" ++ joinSp preview
      else
        "【文档概述】本文档描述了" ++ title ++ "相关内容：" ++ strTake text 300 ++ "..."

/-- Modelled from the spec's words (§4.4.3, as quoted by the claim): the
content bucket when nothing was bucketed is "the top 8 of the first 15
paragraphs of length > 30, ranked by descending importance hits, ties in
original order" — with no requirement that a paragraph score at least one
hit. -/
def specNoStructureContentClaimed (paras : List String) : List String :=
  ((sortByCountDesc
      (((paras.take 15).filter (fun p => 30 < p.length)).map
        (fun p => (p, importanceScore p)))).take 8).map Prod.fst

/-- Modelled from the spec's words as amended: same ranking, but only over
the paragraphs with at least one importance hit. -/
def specNoStructureContentAmended (paras : List String) : List String :=
  ((sortByCountDesc
      ((((paras.take 15).filter (fun p => 30 < p.length)).map
        (fun p => (p, importanceScore p))).filter (fun q => 0 < q.2))).take 8).map
    Prod.fst

/-! ## ClassificationOrchestrator (`process_document`, `format_output`) -/

/-- The classification record assembled by the orchestrator's core path
(before CSV field formatting). -/
structure TagRecord where
  project : String
  docType : String
  keywords : List String
  summary : String
deriving Repr, DecidableEq

/-- Source `format_output`: the CSV-facing field list, with document type
and keywords joined into one semicolon-separated field. -/
def format_output (title project docType : String) (keywords : List String)
    (summary : String) : List (String × String) :=
  [("文档标题", title), ("所属项目", project),
   ("文档关键词", docType ++ "; " ++ joinSemi keywords),
   ("文档内容概述", summary)]

/-- The orchestrator's core path (`process_document` after text extraction),
parameterized over the four classification components so that the blank-text
claim can state that none of them is invoked. -/
def processCore (pc dc : String → String → String) (ke : String → List String)
    (sg : String → String → String) (title text : String) : TagRecord :=
  if (pyStripWs text).data.isEmpty then
    { project := "未知项目", docType := "知识类文档", keywords := [],
      summary := "文档内容为空" }
  else
    { project := pc text title, docType := dc text title, keywords := ke text,
      summary := sg text title }

/-- The orchestrator instantiated with the four source components
(`tok` abstracts the jieba capability for project inference, `rich` the
jieba capability for summary generation). -/
def process (tok : String → List String) (rich : Bool) (title text : String) :
    TagRecord :=
  processCore (fun t ti => identify_project tok t ti) classify_document_type
    extract_keywords (fun t ti => generate_content_summary rich t ti) title text

/-- C4's counterexample text: `"aa bb cc dd "` repeated 50 times, exactly
600 characters with four distinct frequent words. -/
def c4Text : String := String.mk ((List.replicate 50 "aa bb cc dd ".data).flatten)

/-! ## Lemmas: "max of a mapping, first on tie" selection -/

theorem foldBest_eq_self (p : String × Nat) :
    ∀ l : List (String × Nat), (∀ q ∈ l, q.2 ≤ p.2) → foldBest p l = p := by
  intro l
  induction l with
  | nil => intro _; rfl
  | cons q rest ih =>
    intro h
    have hq : ¬ p.2 < q.2 := not_lt.mpr (h q (List.mem_cons_self q rest))
    show List.foldl _ (if p.2 < q.2 then q else p) rest = p
    rw [if_neg hq]
    exact ih (fun r hr => h r (List.mem_cons_of_mem q hr))

theorem maxScores_cons (p : String × Nat) (l : List (String × Nat)) :
    maxScores (p :: l) = max p.2 (maxScores l) := rfl

theorem le_maxScores {q : String × Nat} :
    ∀ {l : List (String × Nat)}, q ∈ l → q.2 ≤ maxScores l := by
  intro l
  induction l with
  | nil => intro h; cases h
  | cons p rest ih =>
    intro h
    rw [maxScores_cons]
    rcases List.mem_cons.mp h with h' | h'
    · subst h'; exact le_max_left _ _
    · exact le_trans (ih h') (le_max_right _ _)

theorem find_eq_foldBest :
    ∀ (l : List (String × Nat)) (p : String × Nat), p.2 < maxScores l →
      l.find? (fun q => q.2 == maxScores l) = some (foldBest p l) := by
  intro l
  induction l with
  | nil => intro p h; simp [maxScores] at h
  | cons q rest ih =>
    intro p h
    rw [maxScores_cons] at h
    simp only [maxScores_cons]
    rcases le_or_lt (maxScores rest) q.2 with hR | hR
    · have hmax : max q.2 (maxScores rest) = q.2 := Nat.max_eq_left hR
      rw [hmax] at h ⊢
      have hbest : foldBest p (q :: rest) = q := by
        show List.foldl _ (if p.2 < q.2 then q else p) rest = q
        rw [if_pos h]
        exact foldBest_eq_self q rest (fun r hr => le_trans (le_maxScores hr) hR)
      rw [hbest]
      simp [List.find?]
    · have hmax : max q.2 (maxScores rest) = maxScores rest :=
        Nat.max_eq_right (le_of_lt hR)
      rw [hmax] at h ⊢
      have hqf : (q.2 == maxScores rest) = false :=
        beq_eq_false_iff_ne.mpr (Nat.ne_of_lt hR)
      have hfold : foldBest p (q :: rest) = foldBest (if p.2 < q.2 then q else p) rest := rfl
      rw [hfold]
      have hlt : (if p.2 < q.2 then q else p).2 < maxScores rest := by
        by_cases hc : p.2 < q.2
        · rw [if_pos hc]; exact hR
        · rw [if_neg hc]; exact h
      rw [show List.find? (fun q' => q'.2 == maxScores rest) (q :: rest)
            = List.find? (fun q' => q'.2 == maxScores rest) rest by
          simp [List.find?, hqf]]
      exact ih _ hlt

theorem maxKeyFirst_eq_find :
    ∀ l : List (String × Nat), l ≠ [] →
      maxKeyFirst l = l.find? (fun q => q.2 == maxScores l) := by
  intro l hne
  match l with
  | [] => exact absurd rfl hne
  | q :: rest =>
    show some (foldBest q rest) = _
    simp only [maxScores_cons]
    rcases le_or_lt (maxScores rest) q.2 with hR | hR
    · have hmax : max q.2 (maxScores rest) = q.2 := Nat.max_eq_left hR
      rw [hmax]
      rw [foldBest_eq_self q rest (fun r hr => le_trans (le_maxScores hr) hR)]
      simp [List.find?]
    · have hmax : max q.2 (maxScores rest) = maxScores rest :=
        Nat.max_eq_right (le_of_lt hR)
      rw [hmax]
      have hqf : (q.2 == maxScores rest) = false :=
        beq_eq_false_iff_ne.mpr (Nat.ne_of_lt hR)
      rw [show List.find? (fun q' => q'.2 == maxScores rest) (q :: rest)
            = List.find? (fun q' => q'.2 == maxScores rest) rest by
          simp [List.find?, hqf]]
      exact (find_eq_foldBest rest q hR).symm

theorem find_filter_congr (p q : String × Nat → Bool) :
    ∀ l : List (String × Nat), (∀ a ∈ l, p a = false → q a = false) →
      (l.filter p).find? q = l.find? q := by
  intro l
  induction l with
  | nil => intro _; rfl
  | cons a rest ih =>
    intro h
    by_cases hp : p a
    · rw [List.filter_cons_of_pos hp]
      by_cases hq : q a
      · rw [List.find?_cons_of_pos _ hq, List.find?_cons_of_pos _ hq]
      · have hq' : q a = false := eq_false_of_ne_true hq
        rw [List.find?_cons_of_neg _ (by simp [hq']),
          List.find?_cons_of_neg _ (by simp [hq'])]
        exact ih (fun b hb => h b (List.mem_cons_of_mem a hb))
    · rw [List.filter_cons_of_neg hp]
      have hqa : q a = false :=
        h a (List.mem_cons_self a rest) (eq_false_of_ne_true hp)
      rw [List.find?_cons_of_neg _ (by simp [hqa])]
      exact ih (fun b hb => h b (List.mem_cons_of_mem a hb))

theorem maxScores_filter_pos :
    ∀ l : List (String × Nat),
      maxScores (l.filter (fun p => 0 < p.2)) = maxScores l := by
  intro l
  induction l with
  | nil => rfl
  | cons p rest ih =>
    by_cases hp : 0 < p.2
    · rw [List.filter_cons_of_pos (by simpa using hp), maxScores_cons,
        maxScores_cons, ih]
    · have hz : p.2 = 0 := Nat.eq_zero_of_not_pos hp
      rw [List.filter_cons_of_neg (by simpa using hp), maxScores_cons, ih, hz]
      exact (Nat.max_eq_right (Nat.zero_le _)).symm

/-- C6: for every (title, text), `classify_document_type` scores each of the
six buckets by content occurrences plus 5 per trigger in the title, and
returns the bucket with the maximum score, first-declared winning ties,
defaulting to 知识类文档 when every score is zero — i.e. it agrees with the
specification-side selection over all six scores. -/
theorem C6_classify_document_type (text title : String) :
    classify_document_type text title = classifyDocumentTypeSpec text title := by
  unfold classify_document_type classifyDocumentTypeSpec
  by_cases hz : (docTypeScores text title).all (fun p => p.2 == 0)
  · have hfil : (docTypeScores text title).filter (fun p => 0 < p.2) = [] := by
      rw [List.filter_eq_nil_iff]
      intro a ha
      have hz' := List.all_eq_true.mp hz a ha
      simp only [beq_iff_eq] at hz'
      simp [hz']
    rw [hfil, if_pos hz]
    rfl
  · rw [if_neg hz]
    have hex : ∃ x ∈ docTypeScores text title, 0 < x.2 := by
      simp only [List.all_eq_true, not_forall] at hz
      obtain ⟨x, hx, hxz⟩ := hz
      exact ⟨x, hx, Nat.pos_of_ne_zero (by simpa using hxz)⟩
    obtain ⟨x, hxmem, hxpos⟩ := hex
    have hne : (docTypeScores text title).filter (fun p => 0 < p.2) ≠ [] := by
      intro he
      rw [List.filter_eq_nil_iff] at he
      exact he x hxmem (by simpa using hxpos)
    rw [maxKeyFirst_eq_find _ hne]
    have hms : maxScores ((docTypeScores text title).filter (fun p => 0 < p.2))
        = maxScores (docTypeScores text title) := maxScores_filter_pos _
    rw [show (fun q : String × Nat =>
          q.2 == maxScores ((docTypeScores text title).filter (fun p => 0 < p.2)))
        = (fun q : String × Nat => q.2 == maxScores (docTypeScores text title)) by
      funext q; rw [hms]]
    have hposmax : 0 < maxScores (docTypeScores text title) :=
      lt_of_lt_of_le hxpos (le_maxScores hxmem)
    have hcongr : ∀ a ∈ docTypeScores text title,
        (fun p : String × Nat => decide (0 < p.2)) a = false →
        (fun q : String × Nat => q.2 == maxScores (docTypeScores text title)) a
          = false := by
      intro a _ hpa
      have ha0 : a.2 = 0 := by
        have := of_decide_eq_false hpa
        omega
      rw [show (fun q : String × Nat =>
            q.2 == maxScores (docTypeScores text title)) a
          = (a.2 == maxScores (docTypeScores text title)) from rfl, ha0]
      exact beq_eq_false_iff_ne.mpr (by omega)
    rw [find_filter_congr _ _ _ hcongr]

/-! ## Lemmas: the keyword selection loop and counter -/

theorem selectKeywords_sublist :
    ∀ (l : List (String × Nat)) (quota : Nat),
      List.Sublist (selectKeywords l quota) (l.map Prod.fst) := by
  intro l
  induction l with
  | nil => intro _; exact List.Sublist.refl _
  | cons p rest ih =>
    intro quota
    obtain ⟨w, c⟩ := p
    simp only [selectKeywords, List.map_cons]
    split
    · exact (ih (quota - 1)).cons₂ w
    · exact (ih quota).cons w

theorem selectKeywords_length_le :
    ∀ (l : List (String × Nat)) (quota : Nat),
      (selectKeywords l quota).length ≤ quota := by
  intro l
  induction l with
  | nil => intro _; exact Nat.zero_le _
  | cons p rest ih =>
    intro quota
    obtain ⟨w, c⟩ := p
    simp only [selectKeywords]
    split
    · rename_i hcond
      simp only [Bool.and_eq_true, decide_eq_true_eq] at hcond
      have hq : 0 < quota := hcond.2
      have := ih (quota - 1)
      simp only [List.length_cons]
      omega
    · exact ih quota

theorem bump_mem_fst {p : String × Nat} (w : String) :
    ∀ l : List (String × Nat), p ∈ bump w l → p.1 = w ∨ p ∈ l := by
  intro l
  induction l with
  | nil =>
    intro h
    simp only [bump, List.mem_singleton] at h
    left; rw [h]
  | cons q rest ih =>
    intro h
    obtain ⟨k, c⟩ := q
    simp only [bump] at h
    split at h
    · rename_i hkw
      rcases List.mem_cons.mp h with h' | h'
      · left; rw [h']; exact hkw
      · right; exact List.mem_cons_of_mem _ h'
    · rcases List.mem_cons.mp h with h' | h'
      · right; rw [h']; exact List.mem_cons_self _ _
      · rcases ih h' with h'' | h''
        · left; exact h''
        · right; exact List.mem_cons_of_mem _ h''

theorem foldl_bump_mem :
    ∀ (ws : List String) (acc : List (String × Nat)) (p : String × Nat),
      p ∈ ws.foldl (fun a w => bump w a) acc → p ∈ acc ∨ p.1 ∈ ws := by
  intro ws
  induction ws with
  | nil => intro acc p h; exact Or.inl h
  | cons w ws' ih =>
    intro acc p h
    rcases ih (bump w acc) p h with h' | h'
    · rcases bump_mem_fst w acc h' with h'' | h''
      · right; rw [h'']; exact List.mem_cons_self _ _
      · left; exact h''
    · right; exact List.mem_cons_of_mem _ h'

theorem countKeys_mem {p : String × Nat} {ws : List String}
    (h : p ∈ countKeys ws) : p.1 ∈ ws := by
  rcases foldl_bump_mem ws [] p h with h' | h'
  · cases h'
  · exact h'

theorem insertD_perm (p : String × Nat) :
    ∀ l : List (String × Nat), List.Perm (insertD p l) (p :: l) := by
  intro l
  induction l with
  | nil => exact List.Perm.refl _
  | cons q qs ih =>
    simp only [insertD]
    split
    · exact List.Perm.refl _
    · exact List.Perm.trans (ih.cons q) (List.Perm.swap p q qs)

theorem sortByCountDesc_perm :
    ∀ l : List (String × Nat), List.Perm (sortByCountDesc l) l := by
  intro l
  induction l with
  | nil => exact List.Perm.refl _
  | cons p rest ih =>
    show List.Perm (insertD p (sortByCountDesc rest)) _
    exact List.Perm.trans (insertD_perm p _) (ih.cons p)

/-- Every extracted keyword entered the counter from the verified token
stream, hence is a substring of the original text. -/
theorem extract_keywords_substring {text w : String}
    (h : w ∈ extract_keywords text) : strContains text w = true := by
  unfold extract_keywords at h
  split at h
  · cases h
  · have h1 : w ∈ (rankedKeywords text).map Prod.fst :=
      (selectKeywords_sublist _ _).mem h
    obtain ⟨pr, hmem, hfst⟩ := List.mem_map.mp h1
    have h2 : pr ∈ kwCounter text := (sortByCountDesc_perm _).mem_iff.mp hmem
    have h3 : pr.1 ∈ countedTokens text := countKeys_mem h2
    have h4 := (List.mem_filter.mp h3).2
    simp only [Bool.and_eq_true] at h4
    have h5 := h4.2
    rw [hfst] at h5
    exact h5

theorem extract_keywords_length_le (text : String) :
    (extract_keywords text).length ≤ getKeywordsCount text.length := by
  unfold extract_keywords
  split
  · exact Nat.zero_le _
  · exact selectKeywords_length_le _ _

/-- C2: every keyword in the sequence returned by `extract_keywords` is an
exact contiguous substring of the original text — the verification step is
enforced for all candidates of all three generation methods. -/
theorem C2_keywords_are_substrings (text w : String)
    (h : w ∈ extract_keywords text) : strContains text w = true :=
  extract_keywords_substring h

theorem C2_keywords_are_substrings_witness :
    "测试" ∈ extract_keywords "测试 文本 测试" ∧
      strContains "测试 文本 测试" "测试" = true :=
  ⟨by decide, C2_keywords_are_substrings "测试 文本 测试" "测试" (by decide)⟩

/-- C3: the number of keywords returned by `extract_keywords` never exceeds
the length-derived cap of `_get_keywords_count` (<200→2, <500→3, <1000→5,
<2000→8, <3000→10, <5000→12, <8000→15, <12000→18, <20000→22, otherwise
`min(length/1000 + 3, 30)`). -/
theorem C3_keyword_count_cap (text : String) :
    (extract_keywords text).length ≤ getKeywordsCount text.length :=
  extract_keywords_length_le text

/-- C4 counterexample: the claimed worked example "length 600 → cap 3"
contradicts the step function itself — the cap at 600 is 5 (600 is not
below 500), and the concrete 600-character text `c4Text` yields 4 keywords,
more than the claimed bound of 3. -/
theorem C4_counterexample :
    getKeywordsCount 600 = 5 ∧ getKeywordsCount 600 ≠ 3 ∧
    c4Text.length = 600 ∧
    extract_keywords c4Text = ["aa", "bb", "cc", "dd"] ∧
    ¬ (extract_keywords c4Text).length ≤ 3 := by
  refine ⟨by decide, by decide, by decide, by decide, ?_⟩
  intro hle
  rw [show extract_keywords c4Text = ["aa", "bb", "cc", "dd"] by decide] at hle
  simp at hle

/-- C4 (amended): the cap evaluates to 2 at length 150, to 5 at length 600
(the spec's worked example of 3 contradicts its own step function), and to
min(25+3,30)=28 at length 25000; `extract_keywords` on any text of 600
characters returns at most 5 keywords. -/
theorem C4_cap_values :
    getKeywordsCount 150 = 2 ∧ getKeywordsCount 600 = 5 ∧
    getKeywordsCount 25000 = 28 ∧
    ∀ text : String, text.length = 600 → (extract_keywords text).length ≤ 5 := by
  refine ⟨by decide, by decide, by decide, ?_⟩
  intro text hlen
  have h := extract_keywords_length_le text
  rw [hlen, show getKeywordsCount 600 = 5 by decide] at h
  exact h

theorem C4_cap_values_witness : (extract_keywords c4Text).length ≤ 5 :=
  C4_cap_values.2.2.2 c4Text (by decide)

/-- C1: for every title and every blank or whitespace-only text, the
orchestrator's core path returns exactly the record
{project: 未知项目, docType: 知识类文档, keywords: [], summary: 文档内容为空};
the result is independent of the four component functions, so none of
ProjectClassifier, DocumentTypeClassifier, KeywordExtractor or
SummaryGenerator is invoked. -/
theorem C1_blank_text_record
    (pc dc : String → String → String) (ke : String → List String)
    (sg : String → String → String) (title text : String)
    (h : (pyStripWs text).data.isEmpty = true) :
    processCore pc dc ke sg title text =
      { project := "未知项目", docType := "知识类文档", keywords := [],
        summary := "文档内容为空" } := by
  unfold processCore
  rw [if_pos h]

theorem C1_blank_text_record_witness :
    processCore (fun _ _ => "某项目") (fun _ _ => "某类型") (fun _ => ["词"])
        (fun _ _ => "某概述") "标题" "  \n\t " =
      { project := "未知项目", docType := "知识类文档", keywords := [],
        summary := "文档内容为空" } :=
  C1_blank_text_record _ _ _ _ "标题" "  \n\t " (by decide)

/-- C5: whenever the lower-cased title contains 超品中心 or 超品,
`identify_project` returns 超品中心项目 regardless of the text content and
of the tokenizer — the Tier-1 title check fires before explicit-name
extraction and before keyword scoring. -/
theorem C5_tier1_title_priority (tok : String → List String) (text title : String)
    (h : strContains (pyLower title) "超品中心" = true ∨
         strContains (pyLower title) "超品" = true) :
    identify_project tok text title = "超品中心项目" := by
  have hc : containsAny (pyLower title) ["超品中心", "超品"] = true := by
    simp only [containsAny, List.any_cons, List.any_nil, Bool.or_false,
      Bool.or_eq_true]
    exact h
  have ht : titleTierCheck (pyLower title) = some "超品中心项目" := by
    unfold titleTierCheck
    rw [if_pos hc]
  unfold identify_project identifyProjectCore
  rw [ht]

theorem C5_tier1_title_priority_witness :
    identify_project (fun _ => []) "任意正文内容"
        "超品中心V2.0需求文档" = "超品中心项目" :=
  C5_tier1_title_priority (fun _ => []) "任意正文内容" "超品中心V2.0需求文档"
    (Or.inl (by decide))

/-- C10: a title such as 电商项目V1.0 — matching no tier trigger word, with
a captured core phrase 电商项目 that has no standardization-table entry and
contains none of 中心/平台/系统/管理 — is captured by the X项目 title
pattern and suffixed with 项目 again: `identify_project` returns the
doubled 电商项目项目 for every text and every tokenizer. -/
theorem C10_doubled_project_suffix (tok : String → List String) (text : String) :
    identify_project tok text "电商项目V1.0" = "电商项目项目" := rfl

/-! ## C8: the no-structure content bucket -/

theorem scoredParagraphs_eq :
    ∀ l : List String,
      scoredParagraphs l =
        ((l.filter (fun p => 30 < p.length)).map
          (fun p => (p, importanceScore p))).filter (fun q => 0 < q.2) := by
  intro l
  induction l with
  | nil => rfl
  | cons p rest ih =>
    simp only [scoredParagraphs]
    by_cases hl : 30 < p.length
    · rw [if_pos hl]
      by_cases hs : 0 < importanceScore p
      · rw [if_pos hs, List.filter_cons_of_pos (by simpa using hl), List.map_cons,
          List.filter_cons_of_pos (by simpa using hs), ih]
      · rw [if_neg hs, List.filter_cons_of_pos (by simpa using hl), List.map_cons,
          List.filter_cons_of_neg (by simpa using hs), ih]
    · rw [if_neg hl, List.filter_cons_of_neg (by simpa using hl), ih]

/-- C8 (amended): with the rich-tokenizer capability, when no paragraph was
bucketed into any of the five pattern groups, the content bucket is the top
8 — ranked by descending importance-hit count, ties in original paragraph
order — of those among the first 15 paragraphs of length > 30 that score at
least one hit (zero-hit paragraphs are excluded). -/
theorem C8_no_structure_content (paras : List String)
    (hb : paras.filter isBackgroundPara = [])
    (ho : paras.filter isObjectivePara = [])
    (hc : paras.filter isContentPara = [])
    (hs : paras.filter isSolutionPara = [])
    (hr : paras.filter isResultPara = []) :
    summaryContentBucket paras = specNoStructureContentAmended paras := by
  unfold summaryContentBucket
  rw [hb, ho, hc, hs, hr]
  simp only [List.isEmpty_nil, Bool.and_self, if_true]
  unfold noStructureContent specNoStructureContentAmended
  rw [scoredParagraphs_eq]

theorem C8_no_structure_content_witness :
    summaryContentBucket ["项目xxxxxxxxxxxxxxxxxxxxxxxxxxxxxx"] =
      specNoStructureContentAmended ["项目xxxxxxxxxxxxxxxxxxxxxxxxxxxxxx"] :=
  C8_no_structure_content _ (by decide) (by decide) (by decide) (by decide)
    (by decide)

/-- C8 counterexample: a single 31-character paragraph with no pattern-group
match and no importance hit is excluded by the source (which keeps only
positively scored paragraphs), while the claim's "top 8 of the first 15
paragraphs of length > 30" would contain it. -/
theorem C8_counterexample :
    (["xxxxxxxxxxxxxxxxxxxxxxxxxxxxxxx"].filter isBackgroundPara = [] ∧
     ["xxxxxxxxxxxxxxxxxxxxxxxxxxxxxxx"].filter isObjectivePara = [] ∧
     ["xxxxxxxxxxxxxxxxxxxxxxxxxxxxxxx"].filter isContentPara = [] ∧
     ["xxxxxxxxxxxxxxxxxxxxxxxxxxxxxxx"].filter isSolutionPara = [] ∧
     ["xxxxxxxxxxxxxxxxxxxxxxxxxxxxxxx"].filter isResultPara = []) ∧
    summaryContentBucket ["xxxxxxxxxxxxxxxxxxxxxxxxxxxxxxx"] = [] ∧
    specNoStructureContentClaimed ["xxxxxxxxxxxxxxxxxxxxxxxxxxxxxxx"] =
      ["xxxxxxxxxxxxxxxxxxxxxxxxxxxxxxx"] ∧
    summaryContentBucket ["xxxxxxxxxxxxxxxxxxxxxxxxxxxxxxx"] ≠
      specNoStructureContentClaimed ["xxxxxxxxxxxxxxxxxxxxxxxxxxxxxxx"] := by
  decide

/-! ## C9: the duplicated tier checks -/

theorem innerTierCheck_none {titleLower : String}
    (h : titleTierCheck titleLower = none)
    (hob : strContains titleLower "onboard" = false) :
    innerTitleTierCheck titleLower = none := by
  unfold titleTierCheck at h
  unfold innerTitleTierCheck
  by_cases h1 : containsAny titleLower ["超品中心", "超品"] = true
  · rw [if_pos h1] at h; cases h
  · rw [if_neg h1] at h; rw [if_neg h1]
    by_cases h2 : containsAny titleLower ["财务", "结算", "业绩", "毛利"] = true
    · rw [if_pos h2] at h; cases h
    · rw [if_neg h2] at h; rw [if_neg h2]
      by_cases h3 : containsAny titleLower ["新人", "入职", "培训"] = true
      · rw [if_pos h3] at h; cases h
      · rw [if_neg h3] at h
        have h3' : ¬ containsAny titleLower ["新人", "入职", "培训", "onboard"] = true := by
          intro hcon
          simp only [containsAny, List.any_cons, List.any_nil, Bool.or_false,
            Bool.or_eq_true] at hcon
          rcases hcon with hx | hx | hx | hx
          · exact h3 (by simp only [containsAny, List.any_cons, List.any_nil,
              Bool.or_false, Bool.or_eq_true]; exact Or.inl hx)
          · exact h3 (by simp only [containsAny, List.any_cons, List.any_nil,
              Bool.or_false, Bool.or_eq_true]; exact Or.inr (Or.inl hx))
          · exact h3 (by simp only [containsAny, List.any_cons, List.any_nil,
              Bool.or_false, Bool.or_eq_true]; exact Or.inr (Or.inr hx))
          · rw [hx] at hob; cases hob
        rw [if_neg h3']
        by_cases h4 : containsAny titleLower ["部门", "组织", "团队", "职责"] = true
        · rw [if_pos h4] at h; cases h
        · rw [if_neg h4] at h; rw [if_neg h4]
          by_cases h5 : containsAny titleLower ["商家", "星选", "遥望星选"] = true
          · rw [if_pos h5] at h; cases h
          · rw [if_neg h5] at h; rw [if_neg h5]
            by_cases h6 : containsAny titleLower ["文档", "分类", "收集", "知识"] = true
            · rw [if_pos h6] at h; cases h
            · rw [if_neg h6]

/-- C9 (amended): the two copies of the tier checks are not identical — the
fallback's copy adds the trigger `onboard` to the HR line — but for every
title whose lower-cased form does not contain "onboard",
`identify_project` agrees with the variant whose duplicated checks are
removed. -/
theorem C9_dup_checks_equiv (tok : String → List String) (text title : String)
    (hob : strContains (pyLower title) "onboard" = false) :
    identify_project tok text title = identifyProjectNoDupChecks tok text title := by
  unfold identify_project identifyProjectNoDupChecks
  cases htier : titleTierCheck (pyLower title) with
  | some r =>
    unfold identifyProjectCore
    rw [htier]
  | none =>
    have hf : inferProjectFromContent tok (pyLower (title ++ " " ++ text)) title
        = inferNoTitleChecks tok (pyLower (title ++ " " ++ text)) title := by
      unfold inferProjectFromContent inferNoTitleChecks
      rw [innerTierCheck_none htier hob]
    rw [hf]

theorem C9_dup_checks_equiv_witness :
    identify_project (fun _ => []) "正文内容" "普通标题" =
      identifyProjectNoDupChecks (fun _ => []) "正文内容" "普通标题" :=
  C9_dup_checks_equiv (fun _ => []) "正文内容" "普通标题" (by decide)

/-- C9 counterexample: with title "onboard" (reaching the fallback), the
duplicated checks' extra `onboard` trigger makes the two versions differ,
so the duplication is observable. -/
theorem C9_counterexample :
    identify_project (fun _ => []) "hello world" "onboard" = "人力资源项目" ∧
    identifyProjectNoDupChecks (fun _ => []) "hello world" "onboard" =
      "技术平台项目" ∧
    identify_project (fun _ => []) "hello world" "onboard" ≠
      identifyProjectNoDupChecks (fun _ => []) "hello world" "onboard" := by
  decide

/-! ## C7: order of equal-frequency keywords

The stable descending sort preserves the relative order of equal-count
counter entries, and the counter's key order is the order of first
insertion from the counted token stream.  The claim's "first occurrence in
the text" (substring position) is a different order. -/

theorem sublist_insertD (p : String × Nat) :
    ∀ l : List (String × Nat), List.Sublist l (insertD p l) := by
  intro l
  induction l with
  | nil => exact List.nil_sublist _
  | cons q qs ih =>
    simp only [insertD]
    split
    · exact (List.Sublist.refl _).cons p
    · exact ih.cons₂ q

theorem insertD_pair_before (p b : String × Nat) :
    ∀ l : List (String × Nat), b ∈ l → b.2 ≤ p.2 →
      List.Sublist [p, b] (insertD p l) := by
  intro l
  induction l with
  | nil => intro h _; cases h
  | cons q qs ih =>
    intro hmem hle
    simp only [insertD]
    split
    · exact (List.singleton_sublist.mpr hmem).cons₂ p
    · rename_i hqp
      rcases List.mem_cons.mp hmem with heq | hmem'
      · exact absurd (heq ▸ hle) hqp
      · exact (ih hmem' hle).cons q

theorem sublist_pair_total {α : Type} {a b : α} :
    ∀ l : List α, a ∈ l → b ∈ l → a ≠ b →
      List.Sublist [a, b] l ∨ List.Sublist [b, a] l := by
  intro l
  induction l with
  | nil => intro h; cases h
  | cons x xs ih =>
    intro ha hb hne
    rcases List.mem_cons.mp ha with rfl | ha'
    · rcases List.mem_cons.mp hb with hbx | hb'
      · exact absurd hbx.symm hne
      · exact Or.inl ((List.singleton_sublist.mpr hb').cons₂ a)
    · rcases List.mem_cons.mp hb with rfl | hb'
      · exact Or.inr ((List.singleton_sublist.mpr ha').cons₂ b)
      · rcases ih ha' hb' hne with h | h
        · exact Or.inl (h.cons x)
        · exact Or.inr (h.cons x)

theorem sublist_pair_antisym {α : Type} {a b : α} :
    ∀ l : List α, l.Nodup → List.Sublist [a, b] l → List.Sublist [b, a] l →
      a = b := by
  intro l
  induction l with
  | nil => intro _ h; cases h
  | cons x xs ih =>
    intro hnd h1 h2
    cases h1 with
    | cons _ h1' =>
      cases h2 with
      | cons _ h2' => exact ih (List.nodup_cons.mp hnd).2 h1' h2'
      | cons₂ h2' =>
        have hbxs : b ∈ xs := h1'.mem (by simp)
        exact absurd hbxs (List.nodup_cons.mp hnd).1
    | cons₂ h1' =>
      cases h2 with
      | cons _ h2' =>
        have haxs : a ∈ xs := h2'.mem (by simp)
        exact absurd haxs (List.nodup_cons.mp hnd).1
      | cons₂ h2' => rfl

theorem sort_stable_pairs {x y : String × Nat} (hle : y.2 ≤ x.2) :
    ∀ K : List (String × Nat), List.Sublist [x, y] K →
      List.Sublist [x, y] (sortByCountDesc K) := by
  intro K
  induction K with
  | nil => intro h; cases h
  | cons p rest ih =>
    intro h
    show List.Sublist [x, y] (insertD p (sortByCountDesc rest))
    cases h with
    | cons _ h' => exact (ih h').trans (sublist_insertD p _)
    | cons₂ _ h' =>
      have hy : y ∈ sortByCountDesc rest :=
        (sortByCountDesc_perm rest).mem_iff.mpr (List.singleton_sublist.mp h')
      exact insertD_pair_before x y _ hy hle

theorem sublist_order_iff {α : Type} {a b : α} {lsub l : List α}
    (hsub : List.Sublist lsub l) (hnd : l.Nodup) (ha : a ∈ lsub) (hb : b ∈ lsub)
    (hne : a ≠ b) :
    List.Sublist [a, b] lsub ↔ List.Sublist [a, b] l := by
  constructor
  · intro h; exact h.trans hsub
  · intro h
    rcases sublist_pair_total lsub ha hb hne with h' | h'
    · exact h'
    · exact absurd (sublist_pair_antisym l hnd h (h'.trans hsub)) hne

theorem bump_keys (w : String) :
    ∀ l : List (String × Nat),
      (bump w l).map Prod.fst =
        if w ∈ l.map Prod.fst then l.map Prod.fst
        else l.map Prod.fst ++ [w] := by
  intro l
  induction l with
  | nil => simp [bump]
  | cons q rest ih =>
    obtain ⟨k, c⟩ := q
    simp only [bump]
    split
    · rename_i hkw
      subst hkw
      rw [if_pos (by simp)]
      simp
    · rename_i hkw
      simp only [List.map_cons]
      rw [ih]
      by_cases hw : w ∈ rest.map Prod.fst
      · rw [if_pos hw, if_pos (List.mem_cons_of_mem k hw)]
      · rw [if_neg hw, if_neg (by
          intro hmem
          rcases List.mem_cons.mp hmem with heq | h'
          · exact hkw heq.symm
          · exact hw h'), List.cons_append]

theorem foldl_bump_keys_nodup :
    ∀ (ws : List String) (acc : List (String × Nat)),
      (acc.map Prod.fst).Nodup →
      ((ws.foldl (fun a w => bump w a) acc).map Prod.fst).Nodup := by
  intro ws
  induction ws with
  | nil => intro acc h; exact h
  | cons w ws' ih =>
    intro acc h
    apply ih
    rw [bump_keys]
    split
    · exact h
    · rename_i hnw
      refine List.Nodup.append h (List.nodup_singleton w) ?_
      intro x hx hx'
      rw [List.mem_singleton] at hx'
      subst hx'
      exact hnw hx

theorem countKeys_keys_nodup (ws : List String) :
    ((countKeys ws).map Prod.fst).Nodup :=
  foldl_bump_keys_nodup ws [] (by simp)

theorem lookup_of_mem_nodup {a : String} {c : Nat} :
    ∀ l : List (String × Nat), (l.map Prod.fst).Nodup → (a, c) ∈ l →
      l.lookup a = some c := by
  intro l
  induction l with
  | nil => intro _ h; cases h
  | cons q rest ih =>
    intro hnd hmem
    obtain ⟨k, v⟩ := q
    rcases List.mem_cons.mp hmem with heq | hmem'
    · obtain ⟨h1, h2⟩ := Prod.mk.injEq .. ▸ heq
      subst h1; subst h2
      simp [List.lookup]
    · have hak : a ≠ k := by
        intro he
        subst he
        have : a ∈ rest.map Prod.fst := List.mem_map.mpr ⟨(a, c), hmem', rfl⟩
        exact (List.nodup_cons.mp (by simpa using hnd)).1 this
      rw [show List.lookup a ((k, v) :: rest) = List.lookup a rest by
        simp [List.lookup, beq_eq_false_iff_ne.mpr hak]]
      exact ih (List.nodup_cons.mp (by simpa using hnd)).2 hmem'

theorem key_sublist_to_pair {a b : String} {ca cb : Nat} :
    ∀ L : List (String × Nat), (L.map Prod.fst).Nodup →
      (a, ca) ∈ L → (b, cb) ∈ L → a ≠ b →
      List.Sublist [a, b] (L.map Prod.fst) →
      List.Sublist [(a, ca), (b, cb)] L := by
  intro L
  induction L with
  | nil => intro _ h; cases h
  | cons p rest ih =>
    intro hnd hma hmb hne h
    obtain ⟨k, v⟩ := p
    simp only [List.map_cons] at h hnd
    cases h with
    | cons _ h' =>
      have hak : a ≠ k := by
        intro he
        subst he
        exact (List.nodup_cons.mp hnd).1 (h'.mem (by simp))
      have hbk : b ≠ k := by
        intro he
        subst he
        exact (List.nodup_cons.mp hnd).1 (h'.mem (by simp))
      have hma' : (a, ca) ∈ rest := by
        rcases List.mem_cons.mp hma with heq | h''
        · exact absurd (congrArg Prod.fst heq) hak
        · exact h''
      have hmb' : (b, cb) ∈ rest := by
        rcases List.mem_cons.mp hmb with heq | h''
        · exact absurd (congrArg Prod.fst heq) hbk
        · exact h''
      exact (ih (List.nodup_cons.mp hnd).2 hma' hmb' hne h').cons (k, v)
    | cons₂ _ h' =>
      have hbk : b ≠ a := hne.symm
      have hma' : (a, ca) = (a, v) := by
        rcases List.mem_cons.mp hma with heq | h''
        · exact heq
        · exact absurd (List.mem_map.mpr ⟨(a, ca), h'', rfl⟩)
            (List.nodup_cons.mp hnd).1
      have hmb' : (b, cb) ∈ rest := by
        rcases List.mem_cons.mp hmb with heq | h''
        · exact absurd (congrArg Prod.fst heq) hbk
        · exact h''
      rw [hma']
      exact (List.singleton_sublist.mpr hmb').cons₂ (a, v)

theorem pair_sublist_iff_key {a b : String} {ca cb : Nat}
    (L : List (String × Nat)) (hnd : (L.map Prod.fst).Nodup)
    (hma : (a, ca) ∈ L) (hmb : (b, cb) ∈ L) (hne : a ≠ b) :
    List.Sublist [(a, ca), (b, cb)] L ↔ List.Sublist [a, b] (L.map Prod.fst) := by
  constructor
  · intro h
    simpa using h.map Prod.fst
  · exact key_sublist_to_pair L hnd hma hmb hne

/-- C7 (amended): two distinct returned keywords of equal frequency appear
in the order of the counter's keys — first insertion into the frequency
counter from the counted candidate-token stream — which is not in general
the order of first substring occurrence in the text. -/
theorem C7_equal_freq_order (text a b : String)
    (ha : a ∈ extract_keywords text) (hb : b ∈ extract_keywords text)
    (hne : a ≠ b) (hfreq : kwFreq text a = kwFreq text b) :
    (List.Sublist [a, b] (extract_keywords text) ↔
      List.Sublist [a, b] (counterKeys text)) := by
  by_cases hblank : (pyStripWs text).data.isEmpty = true
  · rw [show extract_keywords text = [] by
      unfold extract_keywords; rw [if_pos hblank]] at ha
    cases ha
  · have hR : extract_keywords text =
        selectKeywords (rankedKeywords text) (getKeywordsCount text.length) := by
      unfold extract_keywords
      rw [if_neg hblank]
    have hK'nodup : ((kwCounter text).map Prod.fst).Nodup := countKeys_keys_nodup _
    have hKnodup : (kwCounter text).Nodup := hK'nodup.of_map
    have hperm : List.Perm (rankedKeywords text) (kwCounter text) :=
      sortByCountDesc_perm _
    have hSnodup : (rankedKeywords text).Nodup := hperm.nodup_iff.mpr hKnodup
    have hS'permK' : List.Perm ((rankedKeywords text).map Prod.fst)
        ((kwCounter text).map Prod.fst) := hperm.map Prod.fst
    have hS'nodup : ((rankedKeywords text).map Prod.fst).Nodup :=
      hS'permK'.nodup_iff.mpr hK'nodup
    have hsub : List.Sublist (extract_keywords text)
        ((rankedKeywords text).map Prod.fst) := by
      rw [hR]; exact selectKeywords_sublist _ _
    obtain ⟨pa, hpaS, hpa1⟩ := List.mem_map.mp (hsub.mem ha)
    obtain ⟨pb, hpbS, hpb1⟩ := List.mem_map.mp (hsub.mem hb)
    have hpaS2 : (a, pa.2) ∈ rankedKeywords text := by rw [← hpa1]; exact hpaS
    have hpbS2 : (b, pb.2) ∈ rankedKeywords text := by rw [← hpb1]; exact hpbS
    have hpaK2 : (a, pa.2) ∈ kwCounter text := hperm.mem_iff.mp hpaS2
    have hpbK2 : (b, pb.2) ∈ kwCounter text := hperm.mem_iff.mp hpbS2
    have hpaf : kwFreq text a = pa.2 := by
      unfold kwFreq
      rw [lookup_of_mem_nodup _ hK'nodup hpaK2]
      rfl
    have hpbf : kwFreq text b = pb.2 := by
      unfold kwFreq
      rw [lookup_of_mem_nodup _ hK'nodup hpbK2]
      rfl
    have hcc : pa.2 = pb.2 := by rw [← hpaf, ← hpbf]; exact hfreq
    have iff1 : List.Sublist [a, b] (extract_keywords text) ↔
        List.Sublist [a, b] ((rankedKeywords text).map Prod.fst) :=
      sublist_order_iff hsub hS'nodup ha hb hne
    have iff2 : List.Sublist [a, b] ((rankedKeywords text).map Prod.fst) ↔
        List.Sublist [(a, pa.2), (b, pb.2)] (rankedKeywords text) :=
      (pair_sublist_iff_key _ hS'nodup hpaS2 hpbS2 hne).symm
    have hpairne : (a, pa.2) ≠ (b, pb.2) := fun he => hne (congrArg Prod.fst he)
    have iff3 : List.Sublist [(a, pa.2), (b, pb.2)] (rankedKeywords text) ↔
        List.Sublist [(a, pa.2), (b, pb.2)] (kwCounter text) := by
      constructor
      · intro h
        rcases sublist_pair_total (kwCounter text) hpaK2 hpbK2 hpairne with h' | h'
        · exact h'
        · exfalso
          have h'' : List.Sublist [(b, pb.2), (a, pa.2)] (rankedKeywords text) :=
            @sort_stable_pairs (b, pb.2) (a, pa.2) (le_of_eq hcc) _ h'
          exact hpairne (sublist_pair_antisym _ hSnodup h h'')
      · intro h
        exact @sort_stable_pairs (a, pa.2) (b, pb.2) (le_of_eq hcc.symm) _ h
    have iff4 : List.Sublist [(a, pa.2), (b, pb.2)] (kwCounter text) ↔
        List.Sublist [a, b] ((kwCounter text).map Prod.fst) :=
      pair_sublist_iff_key _ hK'nodup hpaK2 hpbK2 hne
    exact iff1.trans (iff2.trans (iff3.trans iff4))

theorem C7_equal_freq_order_witness :
    List.Sublist ["ab", "xy"] (extract_keywords "xy,ab ab xy") ↔
      List.Sublist ["ab", "xy"] (counterKeys "xy,ab ab xy") :=
  C7_equal_freq_order "xy,ab ab xy" "ab" "xy" (by decide) (by decide)
    (by decide) (by decide)

/-- C7 counterexample: in "xy,ab ab xy" the keywords ab and xy have equal
frequency and ab precedes xy in the returned sequence, yet xy's first
occurrence in the text (index 0, inside the token "xy,ab") precedes ab's
(index 3): equal-frequency keywords are not ordered by first substring
occurrence in the text. -/
theorem C7_counterexample :
    extract_keywords "xy,ab ab xy" = ["ab", "xy"] ∧
    kwFreq "xy,ab ab xy" "ab" = kwFreq "xy,ab ab xy" "xy" ∧
    firstOccIdx "ab" "xy,ab ab xy" = some 3 ∧
    firstOccIdx "xy" "xy,ab ab xy" = some 0 ∧
    ¬ ((extract_keywords "xy,ab ab xy").indexOf "ab" <
          (extract_keywords "xy,ab ab xy").indexOf "xy" ↔ (3 : Nat) < 0) := by
  refine ⟨by decide, by decide, by decide, by decide, by decide⟩
